import Mathlib

/-
Shallow embedding of src/gestion_stock.py (Logiciel de Gestion Optimisée des
Stocks Multi-Produits).

Modelling conventions:
- Python str is modelled as Lean String, manipulated through its list of
  characters (Python strings are sequences of code points).
- str.upper is modelled character-wise with Char.toUpper; this is exact for
  characters whose Python uppercase form is a single character (all ASCII).
- int(s) is modelled by pyInt?, which accepts an optional ASCII sign followed
  by one or more ASCII decimal digits; Python additionally strips whitespace
  and accepts underscores and non-ASCII digits, none of which occur in the
  keys this program builds.
- dict is modelled as an insertion-ordered association list; deque as a list
  whose head is the left end.
- The state carries the journal (journal_alertes), the stock dict, the lines
  appended to the archive file (the with-open append in _archiver_sur_disque
  is modelled as succeeding), the warning messages emitted by logging.warning
  (backorders), and a history field evicted recording the messages ejected
  from the full journal, in order, so that trace properties can be stated.
-/

namespace GestionStock

/-- SEUIL_ALERTE = 2 in the source configuration. -/
def SEUIL_ALERTE : Nat := 2

/-- MAX_LOG_SIZE = 3 in the source configuration. -/
def MAX_LOG_SIZE : Nat := 3

/-- The decimal digit character for n < 10, as Python str produces. -/
def chiffreVersChar (n : Nat) : Char := Char.ofNat (48 + n)

/-- Decimal digits of a natural number, most significant first, with fuel to
keep the recursion structural (fuel n + 1 is always enough for n). -/
def natVersCharsFuel : Nat → Nat → List Char
  | 0, _ => []
  | fuel + 1, n =>
    if n < 10 then [chiffreVersChar n]
    else natVersCharsFuel fuel (n / 10) ++ [chiffreVersChar (n % 10)]

/-- Decimal digits of a natural number, most significant first. -/
def natVersChars (n : Nat) : List Char := natVersCharsFuel (n + 1) n

/-- Python str applied to a non-negative int. -/
def pyStrNat (n : Nat) : String := ⟨natVersChars n⟩

/-- Python str applied to an int. -/
def pyStrInt (v : Int) : String :=
  if v < 0 then ⟨'-' :: natVersChars v.natAbs⟩ else ⟨natVersChars v.natAbs⟩

/-- The numeric value of an ASCII decimal digit character, if it is one. -/
def charVersChiffre? (c : Char) : Option Nat :=
  if '0' ≤ c ∧ c ≤ '9' then some (c.toNat - 48) else none

/-- Reads a run of decimal digits left to right, accumulating the value;
fails on the first non-digit. -/
def lireChiffres : Nat → List Char → Option Nat
  | acc, [] => some acc
  | acc, c :: cs =>
    match charVersChiffre? c with
    | some d => lireChiffres (acc * 10 + d) cs
    | none => none

/-- Parses a non-empty all-digit character list as a natural number. -/
def charsVersNat? : List Char → Option Nat
  | [] => none
  | c :: cs => lireChiffres 0 (c :: cs)

/-- Model of Python int(s) on the strings this program manipulates: an
optional ASCII sign followed by one or more ASCII decimal digits; none
means ValueError. -/
def pyInt? (s : String) : Option Int :=
  match s.data with
  | [] => none
  | c :: cs =>
    if c = '-' then (charsVersNat? cs).map (fun n => -(n : Int))
    else if c = '+' then (charsVersNat? cs).map (fun n => (n : Int))
    else (charsVersNat? (c :: cs)).map (fun n => (n : Int))

/-- Model of Python str.upper, character-wise (exact for ASCII). -/
def pyUpper (s : String) : String := ⟨s.data.map Char.toUpper⟩

/-- Model of the Python slice cle[1:]. -/
def pySlice1 (s : String) : String := ⟨s.data.drop 1⟩

/-- Whether the first list begins the second, as a Bool. -/
def debuteAvec : List Char → List Char → Bool
  | [], _ => true
  | _ :: _, [] => false
  | c :: cs, d :: ds => c = d && debuteAvec cs ds

/-- Whether the first list occurs contiguously inside the second. -/
def sousListe (cle : List Char) : List Char → Bool
  | [] => cle.isEmpty
  | d :: ds => debuteAvec cle (d :: ds) || sousListe cle ds

/-- Model of the Python test cle in message (substring containment). -/
def contientSousChaine (message cle : String) : Bool :=
  sousListe cle.data message.data

/-- Lookup in the insertion-ordered association list modelling the dict. -/
def dictGet (d : List (String × List Int)) (k : String) : Option (List Int) :=
  match d with
  | [] => none
  | (k2, v) :: reste => if k2 = k then some v else dictGet reste k

/-- Update (or append, for a new key) in the association list modelling the
dict: existing keys keep their position, new keys go at the end, as in a
Python dict. -/
def dictSet (d : List (String × List Int)) (k : String) (v : List Int) :
    List (String × List Int) :=
  match d with
  | [] => [(k, v)]
  | (k2, v2) :: reste =>
    if k2 = k then (k, v) :: reste else (k2, v2) :: dictSet reste k v

/-- Appending to a deque with a maxlen: when the result would exceed maxlen,
the leftmost elements are discarded silently. -/
def dequeAppend (maxlen : Nat) (l : List String) (m : String) : List String :=
  let l2 := l ++ [m]
  if maxlen < l2.length then l2.drop (l2.length - maxlen) else l2

/-- Building deque(l, maxlen): keeps the last maxlen elements. -/
def dequeOfList (maxlen : Nat) (l : List String) : List String :=
  if maxlen < l.length then l.drop (l.length - maxlen) else l

/-- The state of a GestionnaireStock instance, together with the trace of its
externally visible effects: archive holds the lines appended to the archive
file, backorders the logging.warning messages, and evicted is a history
variable recording, in order, the messages ejected from the full journal by
_enregistrer_dans_log (it mirrors exactly the archived messages). -/
structure EtatStock where
  stock : List (String × List Int)
  journal : List String
  archive : List String
  evicted : List String
  backorders : List String
deriving DecidableEq, Repr

/-- The state built by GestionnaireStock.__init__. -/
def etatInitial : EtatStock :=
  { stock := [], journal := [], archive := [], evicted := [], backorders := [] }

/-- len(self.stock.get(cle, [])), the on-hand quantity for a key. -/
def quantiteDe (e : EtatStock) (cle : String) : Nat :=
  match dictGet e.stock cle with
  | some q => q.length
  | none => 0

/-- _generer_cle_unique: upper-cased type tag concatenated with str(vol). -/
def genererCleUnique (typeP : String) (vol : Int) : String :=
  ⟨(pyUpper typeP).data ++ (pyStrInt vol).data⟩

/-- _extraire_volume_cle: int(cle[1:]), with 0 on parse failure. -/
def extraireVolumeCle (cle : String) : Int :=
  match pyInt? (pySlice1 cle) with
  | some n => n
  | none => 0

/-- _est_disponible: the key is present with a non-empty queue. -/
def estDisponible (e : EtatStock) (cle : String) : Bool :=
  match dictGet e.stock cle with
  | some q => 0 < q.length
  | none => false

/-- _archiver_sur_disque: appends one line to the archive file (the write is
modelled as succeeding; on IOError the source logs and continues). -/
def archiverSurDisque (e : EtatStock) (message : String) : EtatStock :=
  { e with archive := e.archive ++ ["[ARCHIVE] " ++ message ++ "\n"] }

/-- _enregistrer_dans_log: when the journal is full, archive the oldest
entry (index 0), then append; the deque maxlen discards the oldest entry on
the append. The ejected message is also recorded in the evicted history. -/
def enregistrerDansLog (e : EtatStock) (message : String) : EtatStock :=
  let e1 :=
    if e.journal.length = MAX_LOG_SIZE then
      match e.journal with
      | ejectee :: _ =>
        let e2 := archiverSurDisque e ejectee
        { e2 with evicted := e2.evicted ++ [ejectee] }
      | [] => e
    else e
  { e1 with journal := dequeAppend MAX_LOG_SIZE e1.journal message }

/-- _nettoyer_alerte_resolue: rebuild the journal keeping only the entries
that do not contain the key, through deque(liste, maxlen=MAX_LOG_SIZE). -/
def nettoyerAlerteResolue (e : EtatStock) (cle : String) : EtatStock :=
  { e with
    journal :=
      dequeOfList MAX_LOG_SIZE
        (e.journal.filter (fun a => !contientSousChaine a cle)) }

/-- _gerer_alerte_seuil: above the threshold resolve the alert, otherwise
record a new critical-stock alert message. -/
def gererAlerteSeuil (e : EtatStock) (cle : String) : EtatStock :=
  let qteActuelle := quantiteDe e cle
  if SEUIL_ALERTE < qteActuelle then
    nettoyerAlerteResolue e cle
  else
    enregistrerDansLog e
      ("ALERTE: Stock critique pour " ++ cle ++ " (Qté: " ++
        pyStrNat qteActuelle ++ ")")

/-- _ajouter_au_stock: derive the key, initialise its queue when new, append
the volume at the right end, return the key. -/
def ajouterAuStock (e : EtatStock) (typeP : String) (vol : Int) :
    EtatStock × String :=
  let cle := genererCleUnique typeP vol
  let file :=
    match dictGet e.stock cle with
    | some q => q
    | none => []
  ({ e with stock := dictSet e.stock cle (file ++ [vol]) }, cle)

/-- traiter_ajout_produit: insert, then re-evaluate the alert threshold. -/
def traiterAjoutProduit (e : EtatStock) (typeP : String) (vol : Int) :
    EtatStock :=
  let r := ajouterAuStock e typeP vol
  gererAlerteSeuil r.1 r.2

/-- self.stock[cle].popleft(): removes and returns the head of the queue of
cle (none when the key is absent or its queue empty; the source only calls
it behind _est_disponible). -/
def popleftStock (e : EtatStock) (cle : String) : Option Int × EtatStock :=
  match dictGet e.stock cle with
  | some (v :: reste) => (some v, { e with stock := dictSet e.stock cle reste })
  | _ => (none, e)

/-- _recuperer_produits: for each requested key in order, when available pop
the head of its queue, collect the key and re-evaluate the threshold;
otherwise log a backorder warning and skip. -/
def recupererProduits : EtatStock → List String → EtatStock × List String
  | e, [] => (e, [])
  | e, cle :: reste =>
    if estDisponible e cle then
      let e1 := (popleftStock e cle).2
      let e2 := gererAlerteSeuil e1 cle
      let r := recupererProduits e2 reste
      (r.1, cle :: r.2)
    else
      let e1 :=
        { e with
          backorders :=
            e.backorders ++ ["RUPTURE: " ++ cle ++ " manquant (Mis en Backorder)"] }
      recupererProduits e1 reste

/-- One step of the stable descending insertion: x goes before the first
element whose volume is strictly smaller, hence after every earlier element
of equal volume. -/
def insererDecroissant (x : Int × String) :
    List (Int × String) → List (Int × String)
  | [] => [x]
  | y :: ys => if y.1 < x.1 then x :: y :: ys else y :: insererDecroissant x ys

/-- The stable sort by strictly descending first component, the behaviour of
temp_list.sort(key=lambda x: x[0], reverse=True) in the source. -/
def triDecroissant (l : List (Int × String)) : List (Int × String) :=
  l.foldl (fun acc x => insererDecroissant x acc) []

/-- _trier_produits_volume: decorate each key with its extracted volume,
sort by descending volume (stable), and keep the keys. -/
def trierProduitsVolume (produits : List String) : List String :=
  let tempList := produits.map (fun p => (extraireVolumeCle p, p))
  (triDecroissant tempList).map (fun item => item.2)

/-- traiter_commande_colis: FIFO retrieval then spatial ordering. -/
def traiterCommandeColis (e : EtatStock) (commande : List String) :
    EtatStock × List String :=
  let r := recupererProduits e commande
  (r.1, trierProduitsVolume r.2)

/-- The operations a caller can run against the controller state: the two
public entry points, and the journal-level record and resolve steps. -/
inductive Operation where
  | ajout : String → Int → Operation
  | commande : List String → Operation
  | record : String → Operation
  | resolve : String → Operation
deriving DecidableEq, Repr

/-- Runs one operation against the state. -/
def executer (e : EtatStock) : Operation → EtatStock
  | .ajout typeP vol => traiterAjoutProduit e typeP vol
  | .commande liste => (traiterCommandeColis e liste).1
  | .record message => enregistrerDansLog e message
  | .resolve cle => nettoyerAlerteResolue e cle

/-- Runs a sequence of operations from a state. -/
def executerSeq (e : EtatStock) (ops : List Operation) : EtatStock :=
  ops.foldl executer e

/-- The state after the receipts of the end-to-end scenario of the spec:
three receipts of (A, 1) followed by two receipts of (B, 3). -/
def etatScenario : EtatStock :=
  executerSeq etatInitial
    [Operation.ajout ("A") 1, Operation.ajout ("A") 1, Operation.ajout ("A") 1,
     Operation.ajout ("B") 3, Operation.ajout ("B") 3]

/-- The result of the scenario order traiter_commande_colis(["A1", "B3"]). -/
def resScenario : EtatStock × List String :=
  traiterCommandeColis etatScenario [("A1"), ("B3")]

/-- A state whose journal is exactly full, used to exercise eviction. -/
def etatJournalPlein : EtatStock :=
  { etatInitial with
    journal := [("alerte un"), ("alerte deux"), ("alerte trois")] }

/-- The state after three receipts whose tags A1, A and a1 with volumes
2, 12 and 2 all derive one and the same key A12. -/
def etatTroisReceptions : EtatStock :=
  traiterAjoutProduit
    (traiterAjoutProduit (traiterAjoutProduit etatInitial ("A1") 2) ("A") 12)
    ("a1") 2

end GestionStock

namespace GestionStock

/-! Basic lemmas about the dict and deque models. -/

theorem dictGet_dictSet_self (d : List (String × List Int)) (k : String)
    (v : List Int) : dictGet (dictSet d k v) k = some v := by
  induction d with
  | nil => simp [dictGet, dictSet]
  | cons hd tl ih =>
    obtain ⟨k2, v2⟩ := hd
    by_cases h : k2 = k
    · simp [dictGet, dictSet, h]
    · simp [dictGet, dictSet, h, ih]

theorem dictGet_dictSet_ne (d : List (String × List Int)) (k k2 : String)
    (v : List Int) (h : k2 ≠ k) :
    dictGet (dictSet d k v) k2 = dictGet d k2 := by
  have hk : k ≠ k2 := fun hh => h hh.symm
  induction d with
  | nil => simp [dictGet, dictSet, hk]
  | cons hd tl ih =>
    obtain ⟨k3, v3⟩ := hd
    by_cases h3 : k3 = k
    · subst h3
      simp [dictGet, dictSet, hk]
    · by_cases h4 : k3 = k2
      · simp [dictGet, dictSet, h3, h4, h]
      · simp [dictGet, dictSet, h3, h4, ih]

theorem dequeAppend_length_le (n : Nat) (l : List String) (m : String) :
    (dequeAppend n l m).length ≤ n := by
  simp only [dequeAppend]
  split <;> rename_i h <;>
    simp only [List.length_drop, List.length_append, List.length_cons,
      List.length_nil] at h ⊢ <;> omega

theorem dequeOfList_length_le (n : Nat) (l : List String) :
    (dequeOfList n l).length ≤ n ∨ dequeOfList n l = l := by
  simp only [dequeOfList]
  split <;> rename_i h
  · left
    simp only [List.length_drop]
    omega
  · right
    rfl

theorem dequeOfList_eq_self (n : Nat) (l : List String) (h : l.length ≤ n) :
    dequeOfList n l = l := by
  simp only [dequeOfList]
  rw [if_neg (by omega)]

/-! Field-level facts about the elementary state transformers. -/

theorem nettoyer_stock (e : EtatStock) (c : String) :
    (nettoyerAlerteResolue e c).stock = e.stock := rfl

theorem nettoyer_archive (e : EtatStock) (c : String) :
    (nettoyerAlerteResolue e c).archive = e.archive := rfl

theorem nettoyer_evicted (e : EtatStock) (c : String) :
    (nettoyerAlerteResolue e c).evicted = e.evicted := rfl

theorem nettoyer_backorders (e : EtatStock) (c : String) :
    (nettoyerAlerteResolue e c).backorders = e.backorders := rfl

theorem enregistrer_journal (e : EtatStock) (m : String) :
    (enregistrerDansLog e m).journal = dequeAppend MAX_LOG_SIZE e.journal m := by
  unfold enregistrerDansLog archiverSurDisque
  split
  · split <;> rfl
  · rfl

theorem enregistrer_stock (e : EtatStock) (m : String) :
    (enregistrerDansLog e m).stock = e.stock := by
  unfold enregistrerDansLog archiverSurDisque
  split
  · split <;> rfl
  · rfl

theorem enregistrer_backorders (e : EtatStock) (m : String) :
    (enregistrerDansLog e m).backorders = e.backorders := by
  unfold enregistrerDansLog archiverSurDisque
  split
  · split <;> rfl
  · rfl

theorem enregistrer_plein (e : EtatStock) (m ejectee : String)
    (reste : List String) (hj : e.journal = ejectee :: reste)
    (hlen : e.journal.length = MAX_LOG_SIZE) :
    (enregistrerDansLog e m).archive
        = e.archive ++ ["[ARCHIVE] " ++ ejectee ++ "\n"] ∧
      (enregistrerDansLog e m).evicted = e.evicted ++ [ejectee] := by
  unfold enregistrerDansLog archiverSurDisque
  rw [if_pos hlen]
  constructor <;> (split <;> simp_all)

theorem enregistrer_pas_plein (e : EtatStock) (m : String)
    (hlen : e.journal.length ≠ MAX_LOG_SIZE) :
    (enregistrerDansLog e m).archive = e.archive ∧
      (enregistrerDansLog e m).evicted = e.evicted := by
  unfold enregistrerDansLog
  rw [if_neg hlen]
  exact ⟨rfl, rfl⟩

theorem gerer_stock (e : EtatStock) (c : String) :
    (gererAlerteSeuil e c).stock = e.stock := by
  simp only [gererAlerteSeuil]
  split
  · exact nettoyer_stock _ _
  · exact enregistrer_stock _ _

theorem gerer_backorders (e : EtatStock) (c : String) :
    (gererAlerteSeuil e c).backorders = e.backorders := by
  simp only [gererAlerteSeuil]
  split
  · exact nettoyer_backorders _ _
  · exact enregistrer_backorders _ _

theorem popleft_autres (e : EtatStock) (c : String) :
    (popleftStock e c).2.journal = e.journal ∧
      (popleftStock e c).2.archive = e.archive ∧
      (popleftStock e c).2.evicted = e.evicted ∧
      (popleftStock e c).2.backorders = e.backorders := by
  unfold popleftStock
  split <;> exact ⟨rfl, rfl, rfl, rfl⟩

theorem estDisponible_faux (e : EtatStock) (c : String)
    (h : dictGet e.stock c = none) : estDisponible e c = false := by
  unfold estDisponible
  rw [h]

end GestionStock

namespace GestionStock

/-! Journal capacity invariant machinery. -/

theorem enregistrer_journal_le (e : EtatStock) (m : String) :
    (enregistrerDansLog e m).journal.length ≤ MAX_LOG_SIZE := by
  rw [enregistrer_journal]
  exact dequeAppend_length_le _ _ _

theorem nettoyer_journal_le (e : EtatStock) (c : String)
    (h : e.journal.length ≤ MAX_LOG_SIZE) :
    (nettoyerAlerteResolue e c).journal.length ≤ MAX_LOG_SIZE := by
  unfold nettoyerAlerteResolue
  rcases dequeOfList_length_le MAX_LOG_SIZE
      (e.journal.filter (fun a => !contientSousChaine a c)) with h1 | h1
  · exact h1
  · show (dequeOfList MAX_LOG_SIZE _).length ≤ MAX_LOG_SIZE
    rw [h1]
    exact le_trans (List.length_filter_le _ _) h

theorem gerer_journal_le (e : EtatStock) (c : String)
    (h : e.journal.length ≤ MAX_LOG_SIZE) :
    (gererAlerteSeuil e c).journal.length ≤ MAX_LOG_SIZE := by
  simp only [gererAlerteSeuil]
  split
  · exact nettoyer_journal_le _ _ h
  · exact enregistrer_journal_le _ _

theorem ajouter_journal (e : EtatStock) (t : String) (v : Int) :
    ((ajouterAuStock e t v).1).journal = e.journal := rfl

theorem traiterAjout_journal_le (e : EtatStock) (t : String) (v : Int)
    (h : e.journal.length ≤ MAX_LOG_SIZE) :
    (traiterAjoutProduit e t v).journal.length ≤ MAX_LOG_SIZE := by
  unfold traiterAjoutProduit
  apply gerer_journal_le
  rw [ajouter_journal]
  exact h

theorem recuperer_journal_le (liste : List String) :
    ∀ e : EtatStock, e.journal.length ≤ MAX_LOG_SIZE →
      ((recupererProduits e liste).1).journal.length ≤ MAX_LOG_SIZE := by
  induction liste with
  | nil => intro e h; exact h
  | cons c reste ih =>
    intro e h
    simp only [recupererProduits]
    split
    · apply ih
      apply gerer_journal_le
      rw [(popleft_autres _ _).1]
      exact h
    · exact ih _ h

theorem executer_journal_le (e : EtatStock) (op : Operation)
    (h : e.journal.length ≤ MAX_LOG_SIZE) :
    (executer e op).journal.length ≤ MAX_LOG_SIZE := by
  cases op with
  | ajout t v => exact traiterAjout_journal_le e t v h
  | commande liste => exact recuperer_journal_le liste e h
  | record m => exact enregistrer_journal_le e m
  | resolve c => exact nettoyer_journal_le e c h

theorem executerSeq_journal_le (ops : List Operation) :
    ∀ e : EtatStock, e.journal.length ≤ MAX_LOG_SIZE →
      (executerSeq e ops).journal.length ≤ MAX_LOG_SIZE := by
  induction ops with
  | nil => intro e h; exact h
  | cons op reste ih =>
    intro e h
    exact ih _ (executer_journal_le e op h)

/-! Archive and eviction history stay synchronised. -/

theorem enregistrer_coherent (e : EtatStock) (m : String)
    (h : e.archive = e.evicted.map (fun s => "[ARCHIVE] " ++ s ++ "\n")) :
    (enregistrerDansLog e m).archive =
      (enregistrerDansLog e m).evicted.map
        (fun s => "[ARCHIVE] " ++ s ++ "\n") := by
  unfold enregistrerDansLog archiverSurDisque
  split
  · split
    · simp [h]
    · exact h
  · exact h

theorem gerer_coherent (e : EtatStock) (c : String)
    (h : e.archive = e.evicted.map (fun s => "[ARCHIVE] " ++ s ++ "\n")) :
    (gererAlerteSeuil e c).archive =
      (gererAlerteSeuil e c).evicted.map
        (fun s => "[ARCHIVE] " ++ s ++ "\n") := by
  simp only [gererAlerteSeuil]
  split
  · rw [nettoyer_archive, nettoyer_evicted]
    exact h
  · exact enregistrer_coherent _ _ h

theorem recuperer_coherent (liste : List String) :
    ∀ e : EtatStock,
      e.archive = e.evicted.map (fun s => "[ARCHIVE] " ++ s ++ "\n") →
      ((recupererProduits e liste).1).archive =
        ((recupererProduits e liste).1).evicted.map
          (fun s => "[ARCHIVE] " ++ s ++ "\n") := by
  induction liste with
  | nil => intro e h; exact h
  | cons c reste ih =>
    intro e h
    simp only [recupererProduits]
    split
    · apply ih
      apply gerer_coherent
      rw [(popleft_autres _ _).2.1, (popleft_autres _ _).2.2.1]
      exact h
    · exact ih _ h

theorem executer_coherent (e : EtatStock) (op : Operation)
    (h : e.archive = e.evicted.map (fun s => "[ARCHIVE] " ++ s ++ "\n")) :
    (executer e op).archive =
      (executer e op).evicted.map (fun s => "[ARCHIVE] " ++ s ++ "\n") := by
  cases op with
  | ajout t v =>
    show (gererAlerteSeuil _ _).archive = _
    exact gerer_coherent _ _ h
  | commande liste => exact recuperer_coherent liste e h
  | record m => exact enregistrer_coherent e m h
  | resolve c =>
    show (nettoyerAlerteResolue e c).archive =
      ((nettoyerAlerteResolue e c).evicted).map
        (fun s => "[ARCHIVE] " ++ s ++ "\n")
    rw [nettoyer_archive, nettoyer_evicted]
    exact h

theorem executerSeq_coherent (ops : List Operation) :
    ∀ e : EtatStock,
      e.archive = e.evicted.map (fun s => "[ARCHIVE] " ++ s ++ "\n") →
      (executerSeq e ops).archive =
        (executerSeq e ops).evicted.map
          (fun s => "[ARCHIVE] " ++ s ++ "\n") := by
  induction ops with
  | nil => intro e h; exact h
  | cons op reste ih =>
    intro e h
    exact ih _ (executer_coherent e op h)

end GestionStock

namespace GestionStock

/-- Claim C2: over every sequence of operations (receipts, fulfillments,
record calls, resolutions) from the initial state, the alert journal never
holds more than MAX_LOG_SIZE entries; and whenever _enregistrer_dans_log
evicts (the journal being full), the evicted message is exactly the entry
that stood at index 0 just before. -/
theorem claim_C2_capacite_journal :
    (∀ ops : List Operation,
        ((executerSeq etatInitial ops).journal).length ≤ MAX_LOG_SIZE) ∧
    (∀ (e : EtatStock) (m ejectee : String) (reste : List String),
        e.journal = ejectee :: reste → e.journal.length = MAX_LOG_SIZE →
        (enregistrerDansLog e m).evicted = e.evicted ++ [ejectee]) := by
  constructor
  · intro ops
    exact executerSeq_journal_le ops etatInitial (by simp [etatInitial])
  · intro e m ejectee reste hj hlen
    exact (enregistrer_plein e m ejectee reste hj hlen).2

/-- Witness for claim C2 at concrete inputs. -/
theorem claim_C2_capacite_journal_witness :
    ((executerSeq etatInitial
        [Operation.record ("a"), Operation.record ("b")]).journal).length ≤
      MAX_LOG_SIZE ∧
    (enregistrerDansLog etatJournalPlein ("alerte quatre")).evicted =
      etatJournalPlein.evicted ++ [("alerte un")] :=
  ⟨claim_C2_capacite_journal.1 [Operation.record ("a"), Operation.record ("b")],
   claim_C2_capacite_journal.2 etatJournalPlein ("alerte quatre")
     ("alerte un") [("alerte deux"), ("alerte trois")] (by decide) (by decide)⟩

/-- Claim C6: for every journal state the deque can hold (its length is
bounded by its maxlen) and every key, after _nettoyer_alerte_resolue no
remaining entry contains the key text, and the remaining entries are exactly
the original entries not containing it, in their original order. -/
theorem claim_C6_resolution (e : EtatStock) (cle : String)
    (h : e.journal.length ≤ MAX_LOG_SIZE) :
    (∀ a ∈ (nettoyerAlerteResolue e cle).journal,
        contientSousChaine a cle = false) ∧
    (nettoyerAlerteResolue e cle).journal =
      e.journal.filter (fun a => !contientSousChaine a cle) := by
  have hj : (nettoyerAlerteResolue e cle).journal =
      e.journal.filter (fun a => !contientSousChaine a cle) := by
    unfold nettoyerAlerteResolue
    exact dequeOfList_eq_self _ _ (le_trans (List.length_filter_le _ _) h)
  refine ⟨?_, hj⟩
  intro a ha
  rw [hj] at ha
  have h2 := List.of_mem_filter ha
  simpa using h2

/-- Witness for claim C6 at a concrete full journal. -/
theorem claim_C6_resolution_witness :
    (nettoyerAlerteResolue etatJournalPlein ("alerte un")).journal =
      etatJournalPlein.journal.filter
        (fun a => !contientSousChaine a ("alerte un")) :=
  (claim_C6_resolution etatJournalPlein ("alerte un") (by decide)).2

/-- Claim C7: over every operation sequence from the initial state, the
lines appended to the archive file are, in order, exactly the entries
evicted from the journal, each formatted as one line [ARCHIVE] message with
a trailing newline; an eviction appends exactly that one line, a record
without eviction appends nothing, and resolution never archives. -/
theorem claim_C7_archive_ordre :
    (∀ ops : List Operation,
        (executerSeq etatInitial ops).archive =
          ((executerSeq etatInitial ops).evicted).map
            (fun m => "[ARCHIVE] " ++ m ++ "\n")) ∧
    (∀ (e : EtatStock) (m ejectee : String) (reste : List String),
        e.journal = ejectee :: reste → e.journal.length = MAX_LOG_SIZE →
        (enregistrerDansLog e m).archive =
          e.archive ++ ["[ARCHIVE] " ++ ejectee ++ "\n"]) ∧
    (∀ (e : EtatStock) (m : String), e.journal.length ≠ MAX_LOG_SIZE →
        (enregistrerDansLog e m).archive = e.archive ∧
        (enregistrerDansLog e m).evicted = e.evicted) ∧
    (∀ (e : EtatStock) (cle : String),
        (nettoyerAlerteResolue e cle).archive = e.archive ∧
        (nettoyerAlerteResolue e cle).evicted = e.evicted) := by
  refine ⟨?_, ?_, ?_, ?_⟩
  · intro ops
    exact executerSeq_coherent ops etatInitial (by simp [etatInitial])
  · intro e m ejectee reste hj hlen
    exact (enregistrer_plein e m ejectee reste hj hlen).1
  · intro e m hlen
    exact enregistrer_pas_plein e m hlen
  · intro e cle
    exact ⟨nettoyer_archive e cle, nettoyer_evicted e cle⟩

/-- Witness for claim C7 at concrete inputs. -/
theorem claim_C7_archive_ordre_witness :
    (executerSeq etatInitial [Operation.record ("a")]).archive =
      ((executerSeq etatInitial [Operation.record ("a")]).evicted).map
        (fun m => "[ARCHIVE] " ++ m ++ "\n") ∧
    (enregistrerDansLog etatJournalPlein ("alerte quatre")).archive =
      etatJournalPlein.archive ++ ["[ARCHIVE] " ++ "alerte un" ++ "\n"] ∧
    (enregistrerDansLog etatInitial ("a")).archive = etatInitial.archive ∧
    (nettoyerAlerteResolue etatJournalPlein ("alerte un")).archive =
      etatJournalPlein.archive :=
  ⟨claim_C7_archive_ordre.1 [Operation.record ("a")],
   claim_C7_archive_ordre.2.1 etatJournalPlein ("alerte quatre") ("alerte un")
     [("alerte deux"), ("alerte trois")] (by decide) (by decide),
   (claim_C7_archive_ordre.2.2.1 etatInitial ("a") (by decide)).1,
   (claim_C7_archive_ordre.2.2.2 etatJournalPlein ("alerte un")).1⟩

/-- Claim C8: fulfilling an order for a single key the ledger has never
seen returns the empty list, appends exactly one backorder warning, and
leaves the stock, the journal, the archive and the eviction history all
unchanged. -/
theorem claim_C8_backorder (e : EtatStock) (cle : String)
    (h : dictGet e.stock cle = none) :
    (traiterCommandeColis e [cle]).2 = [] ∧
    (traiterCommandeColis e [cle]).1.stock = e.stock ∧
    (traiterCommandeColis e [cle]).1.journal = e.journal ∧
    (traiterCommandeColis e [cle]).1.archive = e.archive ∧
    (traiterCommandeColis e [cle]).1.evicted = e.evicted ∧
    (traiterCommandeColis e [cle]).1.backorders =
      e.backorders ++ ["RUPTURE: " ++ cle ++ " manquant (Mis en Backorder)"] := by
  have hdisp : estDisponible e cle = false := estDisponible_faux e cle h
  simp [traiterCommandeColis, recupererProduits, hdisp, trierProduitsVolume,
    triDecroissant]

/-- Witness for claim C8: an order for Z9 against the fresh controller. -/
theorem claim_C8_backorder_witness :
    (traiterCommandeColis etatInitial [("Z9")]).2 = [] ∧
    (traiterCommandeColis etatInitial [("Z9")]).1.stock = etatInitial.stock ∧
    (traiterCommandeColis etatInitial [("Z9")]).1.journal =
      etatInitial.journal ∧
    (traiterCommandeColis etatInitial [("Z9")]).1.archive =
      etatInitial.archive ∧
    (traiterCommandeColis etatInitial [("Z9")]).1.evicted =
      etatInitial.evicted ∧
    (traiterCommandeColis etatInitial [("Z9")]).1.backorders =
      etatInitial.backorders ++
        ["RUPTURE: " ++ "Z9" ++ " manquant (Mis en Backorder)"] :=
  claim_C8_backorder etatInitial ("Z9") (by decide)

end GestionStock

namespace GestionStock

theorem traiterAjout_stock (e : EtatStock) (t : String) (v : Int) :
    (traiterAjoutProduit e t v).stock =
      dictSet e.stock (genererCleUnique t v)
        ((match dictGet e.stock (genererCleUnique t v) with
          | some q => q
          | none => []) ++ [v]) := by
  show (gererAlerteSeuil (ajouterAuStock e t v).1 (ajouterAuStock e t v).2).stock = _
  rw [gerer_stock]
  rfl

theorem popleft_spec (e : EtatStock) (k : String) (v : Int) (reste : List Int)
    (h : dictGet e.stock k = some (v :: reste)) :
    estDisponible e k = true ∧ (popleftStock e k).1 = some v ∧
      dictGet ((popleftStock e k).2).stock k = some reste := by
  refine ⟨?_, ?_, ?_⟩ <;>
    simp [estDisponible, popleftStock, h, dictGet_dictSet_self]

/-- Claim C1: per-key FIFO. If three receipts all derive the same key k and
k starts absent or empty, the queue of k then holds the three volumes in
receipt order, and three successive issuances (the guarded popleft of
_recuperer_produits) remove and yield v1, then v2, then v3, leaving the
queue empty. -/
theorem claim_C1_fifo (e : EtatStock) (k t1 t2 t3 : String) (v1 v2 v3 : Int)
    (h1 : genererCleUnique t1 v1 = k) (h2 : genererCleUnique t2 v2 = k)
    (h3 : genererCleUnique t3 v3 = k)
    (h0 : dictGet e.stock k = none ∨ dictGet e.stock k = some []) :
    let e3 := traiterAjoutProduit
      (traiterAjoutProduit (traiterAjoutProduit e t1 v1) t2 v2) t3 v3
    dictGet e3.stock k = some [v1, v2, v3] ∧
    estDisponible e3 k = true ∧
    (popleftStock e3 k).1 = some v1 ∧
    estDisponible (popleftStock e3 k).2 k = true ∧
    (popleftStock (popleftStock e3 k).2 k).1 = some v2 ∧
    estDisponible (popleftStock (popleftStock e3 k).2 k).2 k = true ∧
    (popleftStock (popleftStock (popleftStock e3 k).2 k).2 k).1 = some v3 ∧
    dictGet ((popleftStock (popleftStock (popleftStock e3 k).2 k).2 k).2).stock k
      = some [] := by
  intro e3
  have s1 : dictGet (traiterAjoutProduit e t1 v1).stock k = some [v1] := by
    rw [traiterAjout_stock, h1]
    rcases h0 with h | h <;> rw [h, dictGet_dictSet_self] <;> rfl
  have s2 : dictGet (traiterAjoutProduit (traiterAjoutProduit e t1 v1) t2 v2).stock k
      = some [v1, v2] := by
    rw [traiterAjout_stock, h2, s1, dictGet_dictSet_self]
    rfl
  have s3 : dictGet e3.stock k = some [v1, v2, v3] := by
    show dictGet (traiterAjoutProduit
      (traiterAjoutProduit (traiterAjoutProduit e t1 v1) t2 v2) t3 v3).stock k = _
    rw [traiterAjout_stock, h3, s2, dictGet_dictSet_self]
    rfl
  obtain ⟨d1, q1, r1⟩ := popleft_spec e3 k v1 [v2, v3] s3
  obtain ⟨d2, q2, r2⟩ := popleft_spec _ k v2 [v3] r1
  obtain ⟨d3, q3, r3⟩ := popleft_spec _ k v3 [] r2
  exact ⟨s3, d1, q1, d2, q2, d3, q3, r3⟩

/-- Witness for claim C1: the tags A1, A and a1 with volumes 2, 12 and 2
all derive the key A12; the queue then yields 2, 12, 2 in that order. -/
theorem claim_C1_fifo_witness :
    dictGet etatTroisReceptions.stock ("A12") = some [2, 12, 2] ∧
    estDisponible etatTroisReceptions ("A12") = true ∧
    (popleftStock etatTroisReceptions ("A12")).1 = some 2 ∧
    estDisponible (popleftStock etatTroisReceptions ("A12")).2 ("A12")
      = true ∧
    (popleftStock (popleftStock etatTroisReceptions ("A12")).2 ("A12")).1
      = some 12 ∧
    estDisponible (popleftStock (popleftStock etatTroisReceptions
      ("A12")).2 ("A12")).2 ("A12") = true ∧
    (popleftStock (popleftStock (popleftStock etatTroisReceptions
      ("A12")).2 ("A12")).2 ("A12")).1 = some 2 ∧
    dictGet ((popleftStock (popleftStock (popleftStock etatTroisReceptions
      ("A12")).2 ("A12")).2 ("A12")).2).stock ("A12") = some [] :=
  claim_C1_fifo etatInitial ("A12") ("A1") ("A") ("a1") 2 12 2
    (by decide) (by decide) (by decide) (Or.inl (by decide))

/-- Claim C9: key derivation is not injective. The distinct inputs
(A1, 2) and (A, 12) derive the same key A12, so receiving both kinds
appends their different volumes 2 and 12 to one and the same FIFO queue,
whose quantity then counts both units together. -/
theorem claim_C9_cle_non_injective :
    genererCleUnique ("A1") 2 = genererCleUnique ("A") 12 ∧
    (("A1", 2) : String × Int) ≠ ("A", 12) ∧
    dictGet ((ajouterAuStock ((ajouterAuStock etatInitial ("A1") 2).1)
        ("A") 12).1).stock (genererCleUnique ("A1") 2) = some [2, 12] ∧
    quantiteDe ((ajouterAuStock ((ajouterAuStock etatInitial ("A1") 2).1)
        ("A") 12).1) ("A12") = 2 := by
  decide

/-- Claim C3: the end-to-end scenario. After receiving (A, 1) three times
and (B, 3) twice, the quantities are A1: 3 and B3: 2, the journal holds no
entry referencing A1 and at least one referencing B3; the order [A1, B3]
then issues one unit of each (quantities become A1: 2 and B3: 1), the
journal afterwards references both keys, and the packaging order returned
is [B3, A1]. -/
theorem claim_C3_scenario :
    quantiteDe etatScenario ("A1") = 3 ∧
    quantiteDe etatScenario ("B3") = 2 ∧
    etatScenario.journal.all (fun a => !contientSousChaine a ("A1")) = true ∧
    etatScenario.journal.any (fun a => contientSousChaine a ("B3")) = true ∧
    resScenario.2 = [("B3"), ("A1")] ∧
    quantiteDe resScenario.1 ("A1") = 2 ∧
    quantiteDe resScenario.1 ("B3") = 1 ∧
    resScenario.1.journal.any (fun a => contientSousChaine a ("A1")) = true ∧
    resScenario.1.journal.any (fun a => contientSousChaine a ("B3")) = true := by
  decide

end GestionStock

namespace GestionStock

/-! Round trip between decimal printing and parsing. -/

theorem charVersChiffre?_chiffreVersChar (n : Nat) (h : n < 10) :
    charVersChiffre? (chiffreVersChar n) = some n := by
  interval_cases n <;> decide

theorem chiffreVersChar_borne (n : Nat) (h : n < 10) :
    48 ≤ (chiffreVersChar n).toNat ∧ (chiffreVersChar n).toNat ≤ 57 := by
  interval_cases n <;> decide

theorem lireChiffres_append (acc : Nat) (xs ys : List Char) :
    lireChiffres acc (xs ++ ys) =
      (lireChiffres acc xs).bind (fun a => lireChiffres a ys) := by
  induction xs generalizing acc with
  | nil => rfl
  | cons c cs ih =>
    cases hc : charVersChiffre? c with
    | some d =>
      simp only [List.cons_append, lireChiffres, hc]
      exact ih _
    | none => simp only [List.cons_append, lireChiffres, hc, Option.none_bind]

theorem lireChiffres_natVersCharsFuel (fuel : Nat) :
    ∀ (n acc : Nat), n < fuel →
      lireChiffres acc (natVersCharsFuel fuel n) =
        some (acc * 10 ^ (natVersCharsFuel fuel n).length + n) := by
  induction fuel with
  | zero => intro n acc h; omega
  | succ fuel ih =>
    intro n acc h
    by_cases h10 : n < 10
    · simp only [natVersCharsFuel, if_pos h10, lireChiffres,
        charVersChiffre?_chiffreVersChar n h10]
      simp [pow_one]
    · simp only [natVersCharsFuel, if_neg h10]
      rw [lireChiffres_append, ih (n / 10) acc (by omega), Option.some_bind]
      simp only [lireChiffres,
        charVersChiffre?_chiffreVersChar (n % 10) (by omega),
        List.length_append, List.length_cons, List.length_nil]
      congr 1
      rw [pow_succ]
      generalize (10 : Nat) ^ (natVersCharsFuel fuel (n / 10)).length = A
      have key : ∀ B : Nat, (B + n / 10) * 10 + n % 10 = B * 10 + n := by
        intro B; omega
      rw [key (acc * A), mul_assoc]

theorem natVersCharsFuel_ne_nil (fuel n : Nat) (h : n < fuel) :
    natVersCharsFuel fuel n ≠ [] := by
  cases fuel with
  | zero => omega
  | succ f =>
    simp only [natVersCharsFuel]
    split
    · simp
    · simp

theorem natVersCharsFuel_chiffres (fuel : Nat) :
    ∀ n : Nat, n < fuel →
      ∀ c ∈ natVersCharsFuel fuel n, 48 ≤ c.toNat ∧ c.toNat ≤ 57 := by
  induction fuel with
  | zero => intro n h; omega
  | succ f ih =>
    intro n h
    simp only [natVersCharsFuel]
    split <;> rename_i h10
    · intro c hc
      rw [List.mem_singleton] at hc
      subst hc
      exact chiffreVersChar_borne n h10
    · intro c hc
      rw [List.mem_append] at hc
      rcases hc with hc | hc
      · exact ih (n / 10) (by omega) c hc
      · rw [List.mem_singleton] at hc
        subst hc
        exact chiffreVersChar_borne (n % 10) (by omega)

theorem charsVersNat?_natVersChars (n : Nat) :
    charsVersNat? (natVersChars n) = some n := by
  have hne := natVersCharsFuel_ne_nil (n + 1) n (by omega)
  cases hv : natVersCharsFuel (n + 1) n with
  | nil => exact absurd hv hne
  | cons c cs =>
    have hlire := lireChiffres_natVersCharsFuel (n + 1) n 0 (by omega)
    rw [hv] at hlire
    show charsVersNat? (natVersCharsFuel (n + 1) n) = some n
    rw [hv]
    simp only [charsVersNat?]
    rw [hlire]
    simp

theorem pyInt?_pyStrNat (n : Nat) : pyInt? (pyStrNat n) = some (n : Int) := by
  have hne := natVersCharsFuel_ne_nil (n + 1) n (by omega)
  cases hv : natVersCharsFuel (n + 1) n with
  | nil => exact absurd hv hne
  | cons c cs =>
    have hc : 48 ≤ c.toNat ∧ c.toNat ≤ 57 := by
      apply natVersCharsFuel_chiffres (n + 1) n (by omega) c
      rw [hv]
      exact List.mem_cons_self _ _
    have h1 : ¬(c = '-') := by
      intro hh
      rw [hh] at hc
      revert hc
      decide
    have h2 : ¬(c = '+') := by
      intro hh
      rw [hh] at hc
      revert hc
      decide
    have hdata : (pyStrNat n).data = c :: cs := hv
    have hnv : natVersChars n = c :: cs := hv
    simp only [pyInt?, hdata, if_neg h1, if_neg h2]
    rw [← hnv, charsVersNat?_natVersChars]
    rfl

end GestionStock

namespace GestionStock

/-- Counterexample to claim C4 as stated: the non-empty type tag A1 with
the non-negative volume 2 derives the key A12, whose parse by
_extraire_volume_cle gives 12, not 2. -/
theorem claim_C4_contre_exemple :
    extraireVolumeCle (genererCleUnique ("A1") 2) = 12 ∧
    ¬(extraireVolumeCle (genererCleUnique ("A1") 2) = 2) := by
  decide

/-- Claim C4 as amended: the round trip holds for type tags of exactly one
character (whose uppercase form is one character); for every non-negative
volume the parse of the derived key gives back that volume. Keys whose
tail is empty or fails integer parsing give volume 0. -/
theorem claim_C4_roundtrip (c : Char) (n : Nat) :
    extraireVolumeCle (genererCleUnique (String.singleton c) (n : Int))
        = (n : Int) ∧
    (∀ cle : String, pyInt? (pySlice1 cle) = none →
        extraireVolumeCle cle = 0) := by
  constructor
  · have hgen : (genererCleUnique (String.singleton c) (n : Int)).data
        = c.toUpper :: natVersChars n := by
      show (pyUpper (String.singleton c)).data ++ (pyStrInt (n : Int)).data
          = c.toUpper :: natVersChars n
      have hup : (pyUpper (String.singleton c)).data = [c.toUpper] := rfl
      have hstr : (pyStrInt (n : Int)).data = natVersChars n := by
        simp only [pyStrInt]
        rw [if_neg (by omega)]
        simp
      rw [hup, hstr]
      rfl
    have hslice :
        pySlice1 (genererCleUnique (String.singleton c) (n : Int))
          = pyStrNat n := by
      simp only [pySlice1, hgen]
      rfl
    simp only [extraireVolumeCle, hslice, pyInt?_pyStrNat]
  · intro cle h
    simp only [extraireVolumeCle, h]

/-- Witness for the amended claim C4 at concrete inputs. -/
theorem claim_C4_roundtrip_witness :
    extraireVolumeCle (genererCleUnique (String.singleton 'b') ((7 : Nat) : Int))
        = ((7 : Nat) : Int) ∧
    (pyInt? (pySlice1 ("AB")) = none ∧ extraireVolumeCle ("AB") = 0) :=
  ⟨(claim_C4_roundtrip 'b' 7).1,
   by decide,
   (claim_C4_roundtrip 'b' 7).2 ("AB") (by decide)⟩

end GestionStock

namespace GestionStock

/-! The decorated sort is a stable descending sort. -/

theorem insererDecroissant_perm (x : Int × String)
    (l : List (Int × String)) : (insererDecroissant x l).Perm (x :: l) := by
  induction l with
  | nil => exact List.Perm.refl _
  | cons y ys ih =>
    simp only [insererDecroissant]
    split
    · exact List.Perm.refl _
    · exact (ih.cons y).trans (List.Perm.swap x y ys)

theorem insererDecroissant_pairwise (x : Int × String)
    (l : List (Int × String)) (h : l.Pairwise (fun a b => b.1 ≤ a.1)) :
    (insererDecroissant x l).Pairwise (fun a b => b.1 ≤ a.1) := by
  induction l with
  | nil => simp [insererDecroissant]
  | cons y ys ih =>
    rw [List.pairwise_cons] at h
    obtain ⟨hy, hys⟩ := h
    simp only [insererDecroissant]
    split <;> rename_i hcmp
    · rw [List.pairwise_cons]
      refine ⟨?_, ?_⟩
      · intro z hz
        rcases List.mem_cons.mp hz with hz | hz
        · subst hz; exact le_of_lt hcmp
        · exact le_trans (hy z hz) (le_of_lt hcmp)
      · rw [List.pairwise_cons]
        exact ⟨hy, hys⟩
    · rw [List.pairwise_cons]
      refine ⟨?_, ih hys⟩
      intro z hz
      have hz2 := (insererDecroissant_perm x ys).mem_iff.mp hz
      rcases List.mem_cons.mp hz2 with hz2 | hz2
      · subst hz2; omega
      · exact hy z hz2

theorem filter_insererDecroissant (x : Int × String)
    (l : List (Int × String)) (hl : l.Pairwise (fun a b => b.1 ≤ a.1))
    (v : Int) :
    (insererDecroissant x l).filter (fun z => z.1 == v) =
      if x.1 = v then l.filter (fun z => z.1 == v) ++ [x]
      else l.filter (fun z => z.1 == v) := by
  induction l with
  | nil =>
    by_cases hx : x.1 = v <;>
      simp [insererDecroissant, List.filter_cons, hx]
  | cons y ys ih =>
    rw [List.pairwise_cons] at hl
    obtain ⟨hy, hys⟩ := hl
    simp only [insererDecroissant]
    split <;> rename_i hcmp
    · by_cases hx : x.1 = v
      · have hnil : (y :: ys).filter (fun z => z.1 == v) = [] := by
          rw [List.filter_eq_nil_iff]
          intro z hz
          have hlt : z.1 < x.1 := by
            rcases List.mem_cons.mp hz with hz | hz
            · subst hz; exact hcmp
            · exact lt_of_le_of_lt (hy z hz) hcmp
          simp only [beq_iff_eq]
          omega
        rw [List.filter_cons, if_pos (by simp [hx]), hnil, if_pos hx]
        simp
      · rw [List.filter_cons, if_neg (by simp [hx]), if_neg hx]
    · rw [List.filter_cons, List.filter_cons, ih hys]
      by_cases hx : x.1 = v <;> by_cases hyv : y.1 = v <;>
        simp [hx, hyv]

theorem triDecroissant_aux (l : List (Int × String)) :
    ∀ acc : List (Int × String), acc.Pairwise (fun a b => b.1 ≤ a.1) →
      (l.foldl (fun a x => insererDecroissant x a) acc).Pairwise
          (fun a b => b.1 ≤ a.1) ∧
      ∀ v : Int,
        (l.foldl (fun a x => insererDecroissant x a) acc).filter
            (fun z => z.1 == v) =
          acc.filter (fun z => z.1 == v) ++ l.filter (fun z => z.1 == v) := by
  induction l with
  | nil => intro acc h; exact ⟨h, fun v => by simp⟩
  | cons x xs ih =>
    intro acc h
    have h2 := insererDecroissant_pairwise x acc h
    obtain ⟨hp, hf⟩ := ih (insererDecroissant x acc) h2
    refine ⟨hp, ?_⟩
    intro v
    simp only [List.foldl_cons]
    rw [hf v, filter_insererDecroissant x acc h v, List.filter_cons]
    by_cases hx : x.1 = v <;> simp [hx]

theorem triDecroissant_pairwise (l : List (Int × String)) :
    (triDecroissant l).Pairwise (fun a b => b.1 ≤ a.1) :=
  (triDecroissant_aux l [] List.Pairwise.nil).1

theorem triDecroissant_filter (l : List (Int × String)) (v : Int) :
    (triDecroissant l).filter (fun z => z.1 == v) =
      l.filter (fun z => z.1 == v) := by
  have h := (triDecroissant_aux l [] List.Pairwise.nil).2 v
  simpa using h

theorem triDecroissant_perm_aux (l : List (Int × String)) :
    ∀ acc,
      (l.foldl (fun a x => insererDecroissant x a) acc).Perm (acc ++ l) := by
  induction l with
  | nil => intro acc; simp
  | cons x xs ih =>
    intro acc
    simp only [List.foldl_cons]
    have h1 := ih (insererDecroissant x acc)
    have h2 : (insererDecroissant x acc ++ xs).Perm ((x :: acc) ++ xs) :=
      (insererDecroissant_perm x acc).append_right xs
    have h3 : ((x :: acc) ++ xs).Perm (acc ++ x :: xs) := by
      simp only [List.cons_append]
      exact List.perm_middle.symm
    exact (h1.trans h2).trans h3

theorem triDecroissant_perm (l : List (Int × String)) :
    (triDecroissant l).Perm l := by
  have h := triDecroissant_perm_aux l []
  simpa [triDecroissant] using h

theorem trier_decoration (l : List String) :
    ∀ x ∈ triDecroissant (l.map (fun p => (extraireVolumeCle p, p))),
      x.1 = extraireVolumeCle x.2 := by
  intro x hx
  have hx2 := (triDecroissant_perm _).mem_iff.mp hx
  obtain ⟨p, hp, hpx⟩ := List.mem_map.mp hx2
  rw [← hpx]

theorem trier_pairwise (l : List String) :
    (trierProduitsVolume l).Pairwise
      (fun a b => extraireVolumeCle b ≤ extraireVolumeCle a) := by
  show (List.map (fun item => item.2)
      (triDecroissant (l.map (fun p => (extraireVolumeCle p, p))))).Pairwise _
  rw [List.pairwise_map]
  refine List.Pairwise.imp_of_mem ?_ (triDecroissant_pairwise _)
  intro a b ha hb hr
  rw [← trier_decoration l a ha, ← trier_decoration l b hb]
  exact hr

theorem trier_stable (l : List String) (v : Int) :
    (trierProduitsVolume l).filter (fun k => extraireVolumeCle k == v) =
      l.filter (fun k => extraireVolumeCle k == v) := by
  show (List.map (fun item => item.2)
      (triDecroissant (l.map (fun p => (extraireVolumeCle p, p))))).filter
        (fun k => extraireVolumeCle k == v) = _
  rw [List.filter_map]
  have hcongr :
      (triDecroissant (l.map (fun p => (extraireVolumeCle p, p)))).filter
          ((fun k => extraireVolumeCle k == v) ∘ (fun item => item.2)) =
        (triDecroissant (l.map (fun p => (extraireVolumeCle p, p)))).filter
          (fun z => z.1 == v) := by
    apply List.filter_congr
    intro x hx
    simp only [Function.comp]
    rw [← trier_decoration l x hx]
  rw [hcongr, triDecroissant_filter, List.filter_map]
  have hfil : List.filter ((fun (z : Int × String) => z.1 == v) ∘
        fun p => (extraireVolumeCle p, p)) l =
      List.filter (fun k => extraireVolumeCle k == v) l := rfl
  have hmap : ∀ X : List String,
      List.map ((fun (item : Int × String) => item.2) ∘
        fun p => (extraireVolumeCle p, p)) X = X := by
    intro X
    induction X with
    | nil => rfl
    | cons a as iha => simp [iha, Function.comp]
  rw [hfil, List.map_map, hmap]

end GestionStock

namespace GestionStock

/-- Claim C5: _trier_produits_volume orders keys by descending extracted
volume and is stable. The motivating examples hold, the output is pairwise
non-increasing in extracted volume, and for every volume class the keys of
that class appear in the output exactly in their input order. -/
theorem claim_C5_tri_stable :
    trierProduitsVolume [("A1"), ("C2"), ("B3")]
        = [("B3"), ("C2"), ("A1")] ∧
    trierProduitsVolume [("X2"), ("Y2")] = [("X2"), ("Y2")] ∧
    (∀ l : List String, (trierProduitsVolume l).Pairwise
        (fun a b => extraireVolumeCle b ≤ extraireVolumeCle a)) ∧
    (∀ (l : List String) (v : Int),
        (trierProduitsVolume l).filter (fun k => extraireVolumeCle k == v) =
          l.filter (fun k => extraireVolumeCle k == v)) :=
  ⟨by decide, by decide, trier_pairwise, trier_stable⟩

/-! Quantity bookkeeping for order fulfilment. -/

theorem gerer_quantite (e : EtatStock) (c k : String) :
    quantiteDe (gererAlerteSeuil e c) k = quantiteDe e k := by
  simp only [quantiteDe, gerer_stock]

theorem popleft_quantite_self (e : EtatStock) (c : String)
    (h : estDisponible e c = true) :
    quantiteDe ((popleftStock e c).2) c = quantiteDe e c - 1 := by
  cases hd : dictGet e.stock c with
  | none => rw [estDisponible, hd] at h; simp at h
  | some q =>
    cases q with
    | nil => rw [estDisponible, hd] at h; simp at h
    | cons v reste =>
      simp [popleftStock, hd, quantiteDe, dictGet_dictSet_self]

theorem popleft_quantite_autre (e : EtatStock) (c k : String) (hne : k ≠ c) :
    quantiteDe ((popleftStock e c).2) k = quantiteDe e k := by
  unfold popleftStock
  split
  · rename_i v reste hd
    simp [quantiteDe, dictGet_dictSet_ne _ _ _ _ hne]
  · rfl

theorem estDisponible_vrai_quantite (e : EtatStock) (c : String) :
    estDisponible e c = true ↔ 0 < quantiteDe e c := by
  unfold estDisponible quantiteDe
  cases dictGet e.stock c <;> simp

theorem recuperer_count (commande : List String) :
    ∀ (e : EtatStock) (k : String),
      ((recupererProduits e commande).2).count k =
        min (commande.count k) (quantiteDe e k) ∧
      quantiteDe (recupererProduits e commande).1 k =
        quantiteDe e k - min (commande.count k) (quantiteDe e k) := by
  induction commande with
  | nil => intro e k; simp [recupererProduits]
  | cons c reste ih =>
    intro e k
    simp only [recupererProduits]
    split <;> rename_i hdisp
    · have hpos : 0 < quantiteDe e c :=
        (estDisponible_vrai_quantite e c).mp hdisp
      have hq1 : quantiteDe ((popleftStock e c).2) c = quantiteDe e c - 1 :=
        popleft_quantite_self e c hdisp
      obtain ⟨ihc, ihq⟩ :=
        ih (gererAlerteSeuil (popleftStock e c).2 c) k
      rw [gerer_quantite] at ihc ihq
      by_cases hck : c = k
      · subst hck
        rw [hq1] at ihc ihq
        constructor
        · rw [List.count_cons, ihc]
          simp only [beq_self_eq_true, if_pos]
          rw [List.count_cons]
          simp only [beq_self_eq_true, if_pos]
          omega
        · rw [ihq, List.count_cons]
          simp only [beq_self_eq_true, if_pos]
          omega
      · have hkc : k ≠ c := fun hh => hck hh.symm
        rw [popleft_quantite_autre e c k hkc] at ihc ihq
        constructor
        · rw [List.count_cons, ihc, List.count_cons]
          have : (c == k) = false := by simp [hck]
          rw [this]
          simp
        · rw [ihq, List.count_cons]
          have : (c == k) = false := by simp [hck]
          rw [this]
          simp
    · have hzero : quantiteDe e c = 0 := by
        have h2 := estDisponible_vrai_quantite e c
        rcases Nat.eq_zero_or_pos (quantiteDe e c) with h3 | h3
        · exact h3
        · exact absurd (h2.mpr h3) hdisp
      obtain ⟨ihc, ihq⟩ := ih
        { e with backorders := e.backorders ++
            ["RUPTURE: " ++ c ++ " manquant (Mis en Backorder)"] } k
      have hqb : quantiteDe { e with backorders := e.backorders ++
          ["RUPTURE: " ++ c ++ " manquant (Mis en Backorder)"] } k
          = quantiteDe e k := rfl
      rw [hqb] at ihc ihq
      by_cases hck : c = k
      · subst hck
        refine ⟨?_, ?_⟩
        · rw [ihc, List.count_cons]
          simp only [beq_self_eq_true, if_pos]
          omega
        · rw [ihq, List.count_cons]
          simp only [beq_self_eq_true, if_pos]
          omega
      · have hcf : (c == k) = false := by simp [hck]
        refine ⟨?_, ?_⟩
        · rw [ihc, List.count_cons, hcf]
          simp
        · rw [ihq, List.count_cons, hcf]
          simp

theorem trier_count (l : List String) (k : String) :
    (trierProduitsVolume l).count k = l.count k := by
  have h1 : (trierProduitsVolume l).Perm
      ((l.map (fun p => (extraireVolumeCle p, p))).map (fun item => item.2)) :=
    (triDecroissant_perm _).map _
  have h2 : (l.map (fun p => (extraireVolumeCle p, p))).map
      (fun item => item.2) = l := by
    rw [List.map_map]
    have : ∀ X : List String,
        List.map ((fun (item : Int × String) => item.2) ∘
          fun p => (extraireVolumeCle p, p)) X = X := by
      intro X
      induction X with
      | nil => rfl
      | cons a as iha => simp [iha, Function.comp]
    exact this l
  rw [h2] at h1
  exact h1.count_eq k

/-- Claim C10: duplicate keys inside one order draw per-occurrence on the
updated ledger. For every state, order and key, fulfilment removes exactly
min(occurrences in the order, prior quantity) units of that key, and the
key appears exactly that many times in the returned sorted list. -/
theorem claim_C10_occurrences (e : EtatStock) (commande : List String)
    (k : String) :
    ((traiterCommandeColis e commande).2).count k =
      min (commande.count k) (quantiteDe e k) ∧
    quantiteDe ((traiterCommandeColis e commande).1) k =
      quantiteDe e k - min (commande.count k) (quantiteDe e k) := by
  obtain ⟨h1, h2⟩ := recuperer_count commande e k
  constructor
  · show (trierProduitsVolume (recupererProduits e commande).2).count k = _
    rw [trier_count]
    exact h1
  · exact h2

end GestionStock
